import Mathlib

set_option maxRecDepth 100000
set_option maxHeartbeats 1000000

/-!
Shallow embedding of the medication-reminder scheduling engine
(`main.py`, `clean_duplicates.py`, `fix_schedule_data.py`).

The persistent store (`medication_history` table) is modelled as a list of
`Entry`; medications (`medications` table rows) as `Med`.  Store-side
filtered select/update/delete are modelled as list `filter`/`map`
operations over the list, which is how the row set behaves (row order is
immaterial to every property proved here).
-/

/-- Status of a `medication_history` row: `pending`, `sent`, `taken` or
`missed` (the four values the system ever writes). -/
inductive Status where
  | pending
  | sent
  | taken
  | missed
deriving DecidableEq, Repr

/-- A `medication_history` row (spec: ScheduleEntry): DB row id, the
deterministic `unique_id`, its `short_id` prefix, owning medication and
patient, civil date string, `HH:MM` time string, derived minute offset,
and status. -/
structure Entry where
  id : Nat
  unique_id : String
  short_id : String
  medication_id : Nat
  patient_id : Nat
  date : String
  scheduled_time : String
  scheduled_minutes : Int
  status : Status
deriving DecidableEq, Repr

/-- A `medications` row: id, owning patient, active flag and the
configured list of daily `HH:MM` times (the parallel `times_minutes`
list is read by `generate_daily_schedule` but never used, so it is
omitted). -/
structure Med where
  id : Nat
  patient_id : Nat
  active : Bool
  times : List String
deriving DecidableEq, Repr

/-- Python `int(s)` on a decimal string: strip surrounding whitespace,
optional single `+`/`-` sign, then a nonempty run of decimal digits
(`ValueError`, i.e. `none`, otherwise). -/
def parsePyDigits : List Char → Option Nat
  | [] => none
  | cs => if cs.all (fun c => c.isDigit)
      then some (cs.foldl (fun n c => n * 10 + (c.toNat - '0'.toNat)) 0)
      else none

/-- ASCII whitespace as stripped by Python `int()`. -/
def isPySpace (c : Char) : Bool :=
  c = ' ' || c = '\t' || c = '\n' || c = '\r' || c = '\x0b' || c = '\x0c'

/-- Python `s.strip()` on a char list. -/
def pyStrip (cs : List Char) : List Char :=
  ((cs.dropWhile isPySpace).reverse.dropWhile isPySpace).reverse

/-- Python `int(s)` for a string: sign handling on top of `parsePyDigits`. -/
def parsePyInt (s : String) : Option Int :=
  match pyStrip s.toList with
  | '-' :: cs => (parsePyDigits cs).map (fun n => -(n : Int))
  | '+' :: cs => (parsePyDigits cs).map (fun n => (n : Int))
  | cs => (parsePyDigits cs).map (fun n => (n : Int))

/-- Python `s.split(sep)` for a one-character separator, on the char
list: split at every occurrence, keeping empty parts (`"".split` gives
one empty part). -/
def splitOnChar (sep : Char) : List Char → List (List Char)
  | [] => [[]]
  | c :: rest =>
    let r := splitOnChar sep rest
    if c = sep then [] :: r
    else
      match r with
      | [] => [[c]]
      | p :: ps => (c :: p) :: ps

/-- Python `s.split(sep)` on strings. -/
def pySplit (s : String) (sep : Char) : List String :=
  (splitOnChar sep s.toList).map (fun cs => String.mk cs)

/-- `h, m = map(int, t_str.split(':'))`: succeeds exactly when the split
has two parts and both parse as Python ints; any other shape raises
`ValueError` (modelled as `none`). -/
def parseTime (s : String) : Option (Int × Int) :=
  match pySplit s ':' with
  | [hs, ms] =>
    match parsePyInt hs, parsePyInt ms with
    | some h, some m => some (h, m)
    | _, _ => none
  | _ => none

/-! ## Alert poller (`_get_pending_now_sync`) -/

/-- The select predicate of `_get_pending_now_sync`: status `pending`,
date equal to today, and `start_window ≤ scheduled_minutes ≤ minutes`
where `start_window = minutes - 30`. -/
def pendingNowSelect (today : String) (minutes : Int) (e : Entry) : Bool :=
  e.status = Status.pending && e.date = today &&
    e.scheduled_minutes ≤ minutes && minutes - 30 ≤ e.scheduled_minutes

/-- `_get_pending_now_sync`: the rows of the store matching the window
predicate. -/
def getPendingNow (store : List Entry) (today : String) (minutes : Int) : List Entry :=
  store.filter (pendingNowSelect today minutes)

/-! ## Finalization (`_update_final_status_sync`) -/

/-- `_update_final_status_sync`: update status to `newStatus` on every row
whose `unique_id` matches *and* whose current status is `sent`. -/
def updateFinalStatus (store : List Entry) (uid : String) (newStatus : Status) : List Entry :=
  store.map (fun e =>
    if e.unique_id = uid ∧ e.status = Status.sent
    then { e with status := newStatus }
    else e)

/-! ## Mark sent (`_mark_sent_sync`) and dispatch (`scheduler` + `send_alert`) -/

/-- `_mark_sent_sync`: set status to `sent` on the row with the given id
(no status guard in the predicate). -/
def markSent (store : List Entry) (itemId : Nat) : List Entry :=
  store.map (fun e => if e.id = itemId then { e with status := Status.sent } else e)

/-- Outcome of the Telegram `send_message` call: it either returns
normally or raises. -/
inductive SendOutcome where
  | ok
  | raises
deriving DecidableEq, Repr

/-- `send_alert`: returns `false` when the joined patient row carries no
`telegram_id`, `false` when the send raises (caught), and `true` exactly
when the message was delivered. -/
def sendAlert (telegramId : Option String) (outcome : SendOutcome) : Bool :=
  match telegramId with
  | none => false
  | some _ =>
    match outcome with
    | SendOutcome.ok => true
    | SendOutcome.raises => false

/-- One entry's dispatch step in the `scheduler` loop body:
`success = await send_alert(...); if success: await mark_sent(m["id"])`. -/
def dispatchOne (store : List Entry) (itemId : Nat) (telegramId : Option String)
    (outcome : SendOutcome) : List Entry :=
  if sendAlert telegramId outcome then markSent store itemId else store

/-! ## Callback handler (`handle_callback`) -/

/-- The payload split `action, unique_id = query.data.split(":")`:
succeeds exactly when the split yields two parts (otherwise the unpack
raises `ValueError`, caught by the handler). -/
def parseCallbackData (data : String) : Option (String × String) :=
  match pySplit data ':' with
  | [action, uid] => some (action, uid)
  | _ => none

/-- `status = "taken" if action == "taken" else "missed"`. -/
def callbackStatus (action : String) : Status :=
  if action = "taken" then Status.taken else Status.missed

/-- `handle_callback` applied to a store: parse the payload; on success
request finalization with the decoded status, otherwise change nothing. -/
def handleCallback (store : List Entry) (data : String) : List Entry :=
  match parseCallbackData data with
  | some (action, uid) => updateFinalStatus store uid (callbackStatus action)
  | none => store

/-! ## Duplicate reconciliation (`clean_duplicates.py`) -/

/-- `status_priority`: `taken`/`missed` rank 3, `sent` rank 2, anything
else rank 1. -/
def status_priority (s : Status) : Nat :=
  match s with
  | Status.taken => 3
  | Status.missed => 3
  | Status.sent => 2
  | Status.pending => 1

/-- Two rows collide when they share the `(medication_id, scheduled_time)`
grouping key. -/
def sameSlotKey (a b : Entry) : Bool :=
  a.medication_id = b.medication_id && a.scheduled_time = b.scheduled_time

/-- `duplicate_list.sort(key=status_priority, reverse=True)`: Python's
sort is stable and `reverse=True` keeps equal-key elements in encounter
order, which is exactly insertion sort with the non-strict descending
comparison. -/
def sortByPriorityDesc (l : List Entry) : List Entry :=
  List.insertionSort (fun a b => status_priority b.status ≤ status_priority a.status) l

/-- The survivor `duplicate_list[0]` of a group after the descending
stable sort. -/
def keeper (g : List Entry) : Option Entry :=
  (sortByPriorityDesc g).head?

/-- The `(medication_id, scheduled_time)` group a row belongs to, in
store order (the `seen` dict of `clean_duplicates`). -/
def groupIn (records : List Entry) (r : Entry) : List Entry :=
  records.filter (fun x => sameSlotKey x r)

/-- A row survives `clean_duplicates` when its group has a single member,
or when it is the group's sort survivor; every other row of a
multi-member group is deleted by row id. -/
def keptInClean (records : List Entry) (r : Entry) : Bool :=
  decide ((groupIn records r).length ≤ 1) ||
    (match keeper (groupIn records r) with
     | some k => decide (r.id = k.id)
     | none => false)

/-- `clean_duplicates`: the store rows (for the day) that survive the
per-group deletions. -/
def cleanDuplicates (records : List Entry) : List Entry :=
  records.filter (keptInClean records)

/-! ## Consistency repair (`fix_schedule_data.py`) -/

/-- One record's repair step: parse `scheduled_time`; on `ValueError`
skip (reporting the skip); otherwise update `scheduled_minutes` to
`h*60+m` exactly when the stored value differs.  Returns the (possibly
updated) record, whether an update was issued, and whether the record
was skipped as invalid. -/
def fixEntry (e : Entry) : Entry × Bool × Bool :=
  match parseTime e.scheduled_time with
  | none => (e, false, true)
  | some (h, m) =>
    let correct := h * 60 + m
    if e.scheduled_minutes ≠ correct
    then ({ e with scheduled_minutes := correct }, true, false)
    else (e, false, false)

/-- `fix_schedule_data` over the day's rows: the resulting store, the
number of records updated (`updates_count`), and the number of invalid
records skipped and reported. -/
def fixScheduleData (records : List Entry) : List Entry × Nat × Nat :=
  match records with
  | [] => ([], 0, 0)
  | e :: rest =>
    let (e', upd, skip) := fixEntry e
    let (rest', updates, skips) := fixScheduleData rest
    (e' :: rest', (if upd then 1 else 0) + updates, (if skip then 1 else 0) + skips)

/-! ## Deterministic ids: `uuid.uuid5(uuid.NAMESPACE_DNS, ...)`

`uuid5` is the SHA-1 of the namespace bytes followed by the UTF-8 name
bytes, truncated to 16 bytes with the version/variant bits forced, and
rendered as lowercase hex in 8-4-4-4-12 groups. -/

/-- `2^32`, the word modulus of SHA-1. -/
def mask32 : Nat := 4294967296

/-- Left-rotation of a 32-bit word. -/
def rotl (x k : Nat) : Nat :=
  ((x <<< k) ||| (x >>> (32 - k))) % mask32

/-- Big-endian 32-bit word from four bytes. -/
def word32OfBytes (a b c d : Nat) : Nat :=
  ((a * 256 + b) * 256 + c) * 256 + d

/-- Big-endian bytes of a 32-bit word. -/
def bytesOfWord32 (w : Nat) : List Nat :=
  [w / 16777216 % 256, w / 65536 % 256, w / 256 % 256, w % 256]

/-- Big-endian bytes of a 64-bit length field. -/
def bytesOfWord64 (n : Nat) : List Nat :=
  [n / 72057594037927936 % 256, n / 281474976710656 % 256,
   n / 1099511627776 % 256, n / 4294967296 % 256,
   n / 16777216 % 256, n / 65536 % 256, n / 256 % 256, n % 256]

/-- Pack a byte list into big-endian 32-bit words, four bytes at a time. -/
def chunkWords : List Nat → List Nat
  | a :: b :: c :: d :: rest => word32OfBytes a b c d :: chunkWords rest
  | _ => []

/-- SHA-1 message schedule: extend the 16 chunk words by `fuel` more
words, each the 1-rotation of the xor of words 3, 8, 14 and 16 back. -/
def extendWords (ws : Array Nat) : Nat → Array Nat
  | 0 => ws
  | k + 1 =>
    let i := ws.size
    extendWords
      (ws.push (rotl (((ws.getD (i - 3) 0) ^^^ (ws.getD (i - 8) 0)) ^^^
        ((ws.getD (i - 14) 0) ^^^ (ws.getD (i - 16) 0))) 1)) k

/-- SHA-1 round function, by round index. -/
def sha1F (i b c d : Nat) : Nat :=
  if i < 20 then (b &&& c) ||| (((mask32 - 1) ^^^ b) &&& d)
  else if i < 40 then (b ^^^ c) ^^^ d
  else if i < 60 then ((b &&& c) ||| (b &&& d)) ||| (c &&& d)
  else (b ^^^ c) ^^^ d

/-- SHA-1 round constant, by round index. -/
def sha1K (i : Nat) : Nat :=
  if i < 20 then 1518500249
  else if i < 40 then 1859775393
  else if i < 60 then 2400959708
  else 3395469782

/-- One SHA-1 round on the five-word state. -/
def sha1Round (ws : Array Nat) (st : Nat × Nat × Nat × Nat × Nat) (i : Nat) :
    Nat × Nat × Nat × Nat × Nat :=
  let (a, b, c, d, e) := st
  let temp := (rotl a 5 + sha1F i b c d + e + sha1K i + ws.getD i 0) % mask32
  (temp, a, rotl b 30, c, d)

/-- Process one 64-byte chunk against the running hash state. -/
def processChunk (h : Nat × Nat × Nat × Nat × Nat) (chunk : List Nat) :
    Nat × Nat × Nat × Nat × Nat :=
  let ws := extendWords (chunkWords chunk).toArray 64
  let (h0, h1, h2, h3, h4) := h
  let (a, b, c, d, e) := (List.range 80).foldl (sha1Round ws) (h0, h1, h2, h3, h4)
  ((h0 + a) % mask32, (h1 + b) % mask32, (h2 + c) % mask32,
   (h3 + d) % mask32, (h4 + e) % mask32)

/-- Split a byte list into 64-byte chunks; the fuel argument makes the
recursion structural (`l.length` steps always suffice). -/
def chunks64Aux : Nat → List Nat → List (List Nat)
  | _, [] => []
  | 0, _ :: _ => []
  | fuel + 1, a :: l => ((a :: l).take 64) :: chunks64Aux fuel ((a :: l).drop 64)

/-- Split a byte list into 64-byte chunks. -/
def chunks64 (l : List Nat) : List (List Nat) :=
  chunks64Aux l.length l

/-- SHA-1 padding: `0x80`, zeros to 56 mod 64, then the bit length as a
big-endian 64-bit field. -/
def sha1Pad (msg : List Nat) : List Nat :=
  let padZeros := (119 - msg.length % 64) % 64
  msg ++ 128 :: List.replicate padZeros 0 ++ bytesOfWord64 (msg.length * 8)

/-- SHA-1 digest (20 bytes) of a byte list. -/
def sha1 (msg : List Nat) : List Nat :=
  let g := (chunks64 (sha1Pad msg)).foldl processChunk
    (1732584193, 4023233417, 2562383102, 271733878, 3285377520)
  bytesOfWord32 g.1 ++ bytesOfWord32 g.2.1 ++ bytesOfWord32 g.2.2.1 ++
    bytesOfWord32 g.2.2.2.1 ++ bytesOfWord32 g.2.2.2.2

/-- UTF-8 encoding of one character. -/
def utf8EncodeChar (c : Char) : List Nat :=
  let n := c.toNat
  if n < 128 then [n]
  else if n < 2048 then [192 ||| (n >>> 6), 128 ||| (n &&& 63)]
  else if n < 65536 then
    [224 ||| (n >>> 12), 128 ||| ((n >>> 6) &&& 63), 128 ||| (n &&& 63)]
  else
    [240 ||| (n >>> 18), 128 ||| ((n >>> 12) &&& 63),
     128 ||| ((n >>> 6) &&& 63), 128 ||| (n &&& 63)]

/-- UTF-8 bytes of a string (`name.encode('utf-8')`). -/
def utf8Bytes (s : String) : List Nat :=
  (s.toList.map utf8EncodeChar).flatten

/-- Lowercase hex digit. -/
def hexDigitChar (n : Nat) : Char :=
  if n < 10 then Char.ofNat (48 + n) else Char.ofNat (87 + n)

/-- Two lowercase hex characters of a byte. -/
def byteHexChars (b : Nat) : List Char :=
  [hexDigitChar (b / 16 % 16), hexDigitChar (b % 16)]

/-- The bytes of `uuid.NAMESPACE_DNS`
(`6ba7b810-9dad-11d1-80b4-00c04fd430c8`). -/
def namespaceDNSBytes : List Nat :=
  [107, 167, 184, 16, 157, 173, 17, 209, 128, 180, 0, 192, 79, 212, 48, 200]

/-- Canonical 8-4-4-4-12 lowercase-hex rendering of 16 UUID bytes. -/
def uuidStringOfBytes (bs : List Nat) : String :=
  let g := fun i => bs.getD i 0
  String.mk (byteHexChars (g 0) ++ byteHexChars (g 1) ++ byteHexChars (g 2) ++
    byteHexChars (g 3) ++ ['-'] ++ byteHexChars (g 4) ++ byteHexChars (g 5) ++
    ['-'] ++ byteHexChars (g 6) ++ byteHexChars (g 7) ++ ['-'] ++
    byteHexChars (g 8) ++ byteHexChars (g 9) ++ ['-'] ++ byteHexChars (g 10) ++
    byteHexChars (g 11) ++ byteHexChars (g 12) ++ byteHexChars (g 13) ++
    byteHexChars (g 14) ++ byteHexChars (g 15))

/-- `str(uuid.uuid5(uuid.NAMESPACE_DNS, name))`. -/
def uuid5dns (name : String) : String :=
  let d := (sha1 (namespaceDNSBytes ++ utf8Bytes name)).take 16
  let b6 := ((d.getD 6 0) &&& 15) ||| 80
  let b8 := ((d.getD 8 0) &&& 63) ||| 128
  uuidStringOfBytes ((d.set 6 b6).set 8 b8)

/-! ## Schedule generator (`generate_daily_schedule`) -/

/-- The content string `f"{med['id']}_{today}_{t_str}"` hashed into the
idempotency key. -/
def uniqueStrFor (medId : Nat) (today t : String) : String :=
  toString medId ++ "_" ++ today ++ "_" ++ t

/-- The record inserted for one missing time slot: deterministic
`unique_id`, its 8-character prefix as `short_id`, status `pending`. -/
def slotRecord (med : Med) (today t : String) (tmin : Int) (rid : Nat) : Entry :=
  let uid := uuid5dns (uniqueStrFor med.id today t)
  { id := rid, unique_id := uid, short_id := uid.take 8,
    medication_id := med.id, patient_id := med.patient_id, date := today,
    scheduled_time := t, scheduled_minutes := tmin, status := Status.pending }

/-- `existing_times`: the `scheduled_time` strings already stored for
`(medication, today)`. -/
def existingTimesFor (store : List Entry) (medId : Nat) (today : String) : List String :=
  (store.filter (fun e => e.medication_id = medId && e.date = today)).map
    Entry.scheduled_time

/-- The inner loop over `med['times']`: skip a slot whose time string
fails to parse, skip a slot already represented, and otherwise build the
new record.  `rid` models the store-assigned row id of the next insert. -/
def newRecordsLoop (med : Med) (today : String) (existingTimes : List String) :
    List String → Nat → List Entry
  | [], _ => []
  | t :: ts, rid =>
    match parseTime t with
    | none => newRecordsLoop med today existingTimes ts rid
    | some (h, m) =>
      if t ∈ existingTimes then newRecordsLoop med today existingTimes ts rid
      else slotRecord med today t (h * 60 + m) rid ::
        newRecordsLoop med today existingTimes ts (rid + 1)

/-- The batch of new records for one medication against the current
store. -/
def newRecordsFor (store : List Entry) (today : String) (med : Med) : List Entry :=
  newRecordsLoop med today (existingTimesFor store med.id today) med.times store.length

/-- The per-medication loop of `generate_daily_schedule`.  `fail med.id`
models the history fetch for that medication raising: the exception
propagates to the single outer `try`, so the whole pass stops there and
the records already inserted for earlier medications are kept. -/
def generateFrom (store : List Entry) (today : String) (fail : Nat → Bool) :
    List Med → List Entry
  | [] => store
  | med :: rest =>
    if fail med.id then store
    else generateFrom (store ++ newRecordsFor store today med) today fail rest

/-- `generate_daily_schedule` with fault injection on the per-medication
history fetch; only medications with `active = True` are fetched. -/
def generateDailyScheduleF (store : List Entry) (today : String) (meds : List Med)
    (fail : Nat → Bool) : List Entry :=
  generateFrom store today fail (meds.filter Med.active)

/-- `generate_daily_schedule` on a fault-free pass. -/
def generateDailySchedule (store : List Entry) (today : String) (meds : List Med) :
    List Entry :=
  generateDailyScheduleF store today meds (fun _ => false)

/-- Number of store rows for one `(medication, date, time-of-day)` slot. -/
def countSlot (store : List Entry) (medId : Nat) (today t : String) : Nat :=
  (store.filter (fun e =>
    e.medication_id = medId && e.date = today && e.scheduled_time = t)).length

/-- A slot the generator is asked to realise: some active medication with
the given id lists the (parseable) time string. -/
def configuredSlot (meds : List Med) (medId : Nat) (t : String) : Prop :=
  ∃ med ∈ meds, med.active = true ∧ med.id = medId ∧ t ∈ med.times ∧
    (parseTime t).isSome = true

instance (meds : List Med) (medId : Nat) (t : String) :
    Decidable (configuredSlot meds medId t) := by
  unfold configuredSlot
  infer_instance

/-! ## Theorems -/

/-- Generation only ever appends rows to the store. -/
theorem generateFrom_append (today : String) (fail : Nat → Bool) :
    ∀ (meds : List Med) (st : List Entry),
      ∃ suf, generateFrom st today fail meds = st ++ suf := by
  intro meds
  induction meds with
  | nil => intro st; exact ⟨[], by simp [generateFrom]⟩
  | cons med rest ih =>
    intro st
    by_cases hf : fail med.id
    · exact ⟨[], by simp [generateFrom, hf]⟩
    · obtain ⟨suf, hsuf⟩ := ih (st ++ newRecordsFor st today med)
      refine ⟨newRecordsFor st today med ++ suf, ?_⟩
      simp only [generateFrom, hf, Bool.false_eq_true, if_false, hsuf, List.append_assoc]

/-- `countSlot` distributes over store concatenation. -/
theorem countSlot_append (a b : List Entry) (mid : Nat) (d t : String) :
    countSlot (a ++ b) mid d t = countSlot a mid d t + countSlot b mid d t := by
  simp [countSlot, List.filter_append]

/-- A slot is populated exactly when some row matches it. -/
theorem countSlot_pos_iff (st : List Entry) (mid : Nat) (d t : String) :
    0 < countSlot st mid d t ↔
      ∃ e ∈ st, e.medication_id = mid ∧ e.date = d ∧ e.scheduled_time = t := by
  rw [countSlot, List.length_pos, ne_eq, List.filter_eq_nil_iff]
  push_neg
  simp only [Bool.and_eq_true, decide_eq_true_eq]
  tauto

/-- `existing_times` lists exactly the times of the slots already
populated for the medication and date. -/
theorem mem_existingTimesFor (st : List Entry) (mid : Nat) (today t : String) :
    t ∈ existingTimesFor st mid today ↔ 0 < countSlot st mid today t := by
  rw [countSlot_pos_iff]
  simp only [existingTimesFor, List.mem_map, List.mem_filter, Bool.and_eq_true,
    decide_eq_true_eq]
  constructor
  · rintro ⟨e, ⟨he, h1, h2⟩, h3⟩
    exact ⟨e, he, h1, h2, h3⟩
  · rintro ⟨e, he, h1, h2, h3⟩
    exact ⟨e, ⟨he, h1, h2⟩, h3⟩

/-- Every record built by the inner generation loop is the slot record of
a parseable, not-yet-represented configured time. -/
theorem newRecordsLoop_mem (med : Med) (today : String) (ex : List String) :
    ∀ (ts : List String) (rid : Nat) (e : Entry),
      e ∈ newRecordsLoop med today ex ts rid →
      ∃ t h m rid2, t ∈ ts ∧ parseTime t = some (h, m) ∧ t ∉ ex ∧
        e = slotRecord med today t (h * 60 + m) rid2 := by
  intro ts
  induction ts with
  | nil => intro rid e he; simp [newRecordsLoop] at he
  | cons t ts ih =>
    intro rid e he
    rw [newRecordsLoop] at he
    cases hp : parseTime t with
    | none =>
      simp only [hp] at he
      obtain ⟨t2, h, m, rid2, ht2, hp2, hex2, he2⟩ := ih rid e he
      exact ⟨t2, h, m, rid2, List.mem_cons_of_mem _ ht2, hp2, hex2, he2⟩
    | some pr =>
      obtain ⟨h, m⟩ := pr
      simp only [hp] at he
      by_cases hex : t ∈ ex
      · rw [if_pos hex] at he
        obtain ⟨t2, h2, m2, rid2, ht2, hp2, hex2, he2⟩ := ih rid e he
        exact ⟨t2, h2, m2, rid2, List.mem_cons_of_mem _ ht2, hp2, hex2, he2⟩
      · rw [if_neg hex] at he
        rcases List.mem_cons.mp he with he1 | he1
        · exact ⟨t, h, m, rid, List.mem_cons_self t ts, hp, hex, he1⟩
        · obtain ⟨t2, h2, m2, rid2, ht2, hp2, hex2, he2⟩ := ih (rid + 1) e he1
          exact ⟨t2, h2, m2, rid2, List.mem_cons_of_mem _ ht2, hp2, hex2, he2⟩

/-- Every row present after a generation pass was already in the store or
is the slot record of a configured time of one of the processed
medications. -/
theorem generateFrom_mem (today : String) (fail : Nat → Bool) :
    ∀ (meds : List Med) (st : List Entry) (e : Entry),
      e ∈ generateFrom st today fail meds →
      e ∈ st ∨ ∃ med ∈ meds, ∃ t h m rid2, t ∈ med.times ∧
        parseTime t = some (h, m) ∧ e = slotRecord med today t (h * 60 + m) rid2 := by
  intro meds
  induction meds with
  | nil => intro st e he; exact Or.inl he
  | cons med rest ih =>
    intro st e he
    rw [generateFrom] at he
    by_cases hf : fail med.id
    · rw [if_pos hf] at he
      exact Or.inl he
    · rw [if_neg hf] at he
      rcases ih _ e he with hin | ⟨med2, hmed2, t, h, m, rid2, ht, hp, he2⟩
      · rcases List.mem_append.mp hin with h1 | h1
        · exact Or.inl h1
        · obtain ⟨t, h, m, rid2, ht, hp, _, he2⟩ :=
            newRecordsLoop_mem med today _ med.times st.length e h1
          exact Or.inr ⟨med, List.mem_cons_self med rest, t, h, m, rid2, ht, hp, he2⟩
      · exact Or.inr ⟨med2, List.mem_cons_of_mem _ hmed2, t, h, m, rid2, ht, hp, he2⟩

/-- The key of a slot record is the content-derived UUID of its tuple. -/
theorem slotRecord_unique_id (med : Med) (today t : String) (tm : Int) (rid : Nat) :
    (slotRecord med today t tm rid).unique_id = uuid5dns (uniqueStrFor med.id today t) :=
  rfl

/-- The short key of a slot record is the 8-character prefix of its key. -/
theorem slotRecord_short_id (med : Med) (today t : String) (tm : Int) (rid : Nat) :
    (slotRecord med today t tm rid).short_id =
      (uuid5dns (uniqueStrFor med.id today t)).take 8 := by
  simp [slotRecord]

/-- The medication reference of a slot record. -/
theorem slotRecord_medication_id (med : Med) (today t : String) (tm : Int) (rid : Nat) :
    (slotRecord med today t tm rid).medication_id = med.id :=
  rfl

/-- The time string of a slot record. -/
theorem slotRecord_scheduled_time (med : Med) (today t : String) (tm : Int) (rid : Nat) :
    (slotRecord med today t tm rid).scheduled_time = t :=
  rfl

/-- The minute offset of a slot record. -/
theorem slotRecord_scheduled_minutes (med : Med) (today t : String) (tm : Int) (rid : Nat) :
    (slotRecord med today t tm rid).scheduled_minutes = tm :=
  rfl

/-- The date of a slot record. -/
theorem slotRecord_date (med : Med) (today t : String) (tm : Int) (rid : Nat) :
    (slotRecord med today t tm rid).date = today :=
  rfl

/-- The status of a freshly generated slot record is `pending`. -/
theorem slotRecord_status (med : Med) (today t : String) (tm : Int) (rid : Nat) :
    (slotRecord med today t tm rid).status = Status.pending :=
  rfl

/-- The rendered UUID is always exactly 36 characters. -/
theorem uuid5dns_length (s : String) : (uuid5dns s).length = 36 := by
  simp [uuid5dns, uuidStringOfBytes, byteHexChars]

/-- Taking 8 characters of a 36-character key yields 8 characters. -/
theorem take8_of_uuid_length (s : String) (hs : s.length = 36) :
    (s.take 8).length = 8 := by
  rw [String.take_eq]
  have hd : s.data.length = 36 := hs
  simp [String.length, hd]

/-- C2: the poller selects an entry iff its status is `pending`, its date
is today, and its minute-of-day lies in the inclusive window
`[now_minutes - 30, now_minutes]`; with now = minute 600 a pending entry
of today at minute 590 passes the filter, ones at 560 and 605 do not. -/
theorem poller_window_selection (store : List Entry) (today : String) (minutes : Int) :
    (∀ e, e ∈ getPendingNow store today minutes ↔
      e ∈ store ∧ e.status = Status.pending ∧ e.date = today ∧
        minutes - 30 ≤ e.scheduled_minutes ∧ e.scheduled_minutes ≤ minutes) ∧
    (∀ e, e.status = Status.pending → e.date = today →
      (e.scheduled_minutes = 590 → pendingNowSelect today 600 e = true) ∧
      (e.scheduled_minutes = 560 → pendingNowSelect today 600 e = false) ∧
      (e.scheduled_minutes = 605 → pendingNowSelect today 600 e = false)) := by
  constructor
  · intro e
    simp only [getPendingNow, List.mem_filter, pendingNowSelect, Bool.and_eq_true,
      decide_eq_true_eq]
    tauto
  · intro e hs hd
    refine ⟨?_, ?_, ?_⟩ <;> intro hm <;>
      norm_num [pendingNowSelect, hs, hd, hm]

/-- C2 witness: window facts at a concrete store and entries. -/
theorem poller_window_selection_witness :
    pendingNowSelect "2025-01-01" 600
        ⟨1, "u1", "s1", 1, 1, "2025-01-01", "09:50", 590, Status.pending⟩ = true ∧
      pendingNowSelect "2025-01-01" 600
        ⟨2, "u2", "s2", 1, 1, "2025-01-01", "09:20", 560, Status.pending⟩ = false ∧
      pendingNowSelect "2025-01-01" 600
        ⟨3, "u3", "s3", 1, 1, "2025-01-01", "10:05", 605, Status.pending⟩ = false ∧
      (⟨1, "u1", "s1", 1, 1, "2025-01-01", "09:50", 590, Status.pending⟩ : Entry) ∈
        getPendingNow
          [⟨1, "u1", "s1", 1, 1, "2025-01-01", "09:50", 590, Status.pending⟩] "2025-01-01" 600 := by
  refine ⟨?_, ?_, ?_, ?_⟩
  · exact ((poller_window_selection [] "2025-01-01" 600).2 _ rfl rfl).1 rfl
  · exact ((poller_window_selection [] "2025-01-01" 600).2 _ rfl rfl).2.1 rfl
  · exact ((poller_window_selection [] "2025-01-01" 600).2 _ rfl rfl).2.2 rfl
  · exact ((poller_window_selection
      [⟨1, "u1", "s1", 1, 1, "2025-01-01", "09:50", 590, Status.pending⟩]
      "2025-01-01" 600).1 _).mpr (by decide)

/-- C3: finalization updates a row to the desired terminal status exactly
when its `unique_id` matches and its current status is `sent`; a row that
is not `sent` (pending or already finalized) is returned unchanged, as is
any row with a different key, and replaying the same acknowledgment is a
no-op. -/
theorem finalize_only_from_sent (store : List Entry) (uid : String) (newStatus : Status)
    (hterm : newStatus = Status.taken ∨ newStatus = Status.missed) :
    (∀ (i : Nat) (e : Entry), store[i]? = some e → e.unique_id = uid →
      e.status = Status.sent →
      (updateFinalStatus store uid newStatus)[i]? = some { e with status := newStatus }) ∧
    (∀ (i : Nat) (e : Entry), store[i]? = some e → e.status ≠ Status.sent →
      (updateFinalStatus store uid newStatus)[i]? = some e) ∧
    (∀ (i : Nat) (e : Entry), store[i]? = some e → e.unique_id ≠ uid →
      (updateFinalStatus store uid newStatus)[i]? = some e) ∧
    updateFinalStatus (updateFinalStatus store uid newStatus) uid newStatus =
      updateFinalStatus store uid newStatus := by
  refine ⟨?_, ?_, ?_, ?_⟩
  · intro i e hi hu hs
    simp [updateFinalStatus, List.getElem?_map, hi, hu, hs]
  · intro i e hi hs
    simp [updateFinalStatus, List.getElem?_map, hi, hs]
  · intro i e hi hu
    simp [updateFinalStatus, List.getElem?_map, hi, hu]
  · have hns : newStatus ≠ Status.sent := by
      rcases hterm with h | h <;> simp [h]
    unfold updateFinalStatus
    rw [List.map_map]
    refine List.map_congr_left ?_
    intro e _
    by_cases h : e.unique_id = uid ∧ e.status = Status.sent
    · obtain ⟨h1, h2⟩ := h
      simp [Function.comp, h1, h2, hns]
    · simp only [Function.comp_apply, if_neg h]

/-- C3 witness: a `sent` row is finalized to `taken`, a `pending` row is
left `pending`, and the duplicate acknowledgment changes nothing, at a
concrete two-row store. -/
theorem finalize_only_from_sent_witness :
    (updateFinalStatus
        [⟨1, "k1", "s1", 1, 1, "2025-01-01", "08:00", 480, Status.sent⟩,
         ⟨2, "k2", "s2", 1, 1, "2025-01-01", "09:00", 540, Status.pending⟩]
        "k1" Status.taken)[0]? =
      some ⟨1, "k1", "s1", 1, 1, "2025-01-01", "08:00", 480, Status.taken⟩ ∧
    (updateFinalStatus
        [⟨1, "k1", "s1", 1, 1, "2025-01-01", "08:00", 480, Status.sent⟩,
         ⟨2, "k2", "s2", 1, 1, "2025-01-01", "09:00", 540, Status.pending⟩]
        "k2" Status.taken)[1]? =
      some ⟨2, "k2", "s2", 1, 1, "2025-01-01", "09:00", 540, Status.pending⟩ ∧
    updateFinalStatus
        (updateFinalStatus
          [⟨1, "k1", "s1", 1, 1, "2025-01-01", "08:00", 480, Status.sent⟩]
          "k1" Status.missed) "k1" Status.missed =
      updateFinalStatus
        [⟨1, "k1", "s1", 1, 1, "2025-01-01", "08:00", 480, Status.sent⟩]
        "k1" Status.missed := by
  refine ⟨?_, ?_, ?_⟩
  · exact (finalize_only_from_sent
      [⟨1, "k1", "s1", 1, 1, "2025-01-01", "08:00", 480, Status.sent⟩,
       ⟨2, "k2", "s2", 1, 1, "2025-01-01", "09:00", 540, Status.pending⟩]
      "k1" Status.taken (Or.inl rfl)).1 0
      ⟨1, "k1", "s1", 1, 1, "2025-01-01", "08:00", 480, Status.sent⟩ rfl rfl rfl
  · exact (finalize_only_from_sent
      [⟨1, "k1", "s1", 1, 1, "2025-01-01", "08:00", 480, Status.sent⟩,
       ⟨2, "k2", "s2", 1, 1, "2025-01-01", "09:00", 540, Status.pending⟩]
      "k2" Status.taken (Or.inl rfl)).2.1 1
      ⟨2, "k2", "s2", 1, 1, "2025-01-01", "09:00", 540, Status.pending⟩ rfl (by decide)
  · exact (finalize_only_from_sent
      [⟨1, "k1", "s1", 1, 1, "2025-01-01", "08:00", 480, Status.sent⟩]
      "k1" Status.missed (Or.inr rfl)).2.2.2

/-- C10: a callback payload that splits into exactly an action token and a
key finalizes with `taken` exactly when the token is `"taken"` and with
`missed` for any other token; no status outside `taken`/`missed` can be
requested through the handler. -/
theorem callback_action_decoding :
    (∀ action, callbackStatus action = Status.taken ∨ callbackStatus action = Status.missed) ∧
    (∀ action, callbackStatus action = Status.taken ↔ action = "taken") ∧
    (∀ data action uid, parseCallbackData data = some (action, uid) ↔
      pySplit data ':' = [action, uid]) ∧
    (∀ store data action uid, parseCallbackData data = some (action, uid) →
      handleCallback store data = updateFinalStatus store uid (callbackStatus action)) := by
  refine ⟨?_, ?_, ?_, ?_⟩
  · intro action
    by_cases h : action = "taken" <;> simp [callbackStatus, h]
  · intro action
    by_cases h : action = "taken" <;> simp [callbackStatus, h]
  · intro data action uid
    unfold parseCallbackData
    constructor
    · intro h
      cases hs : pySplit data ':' with
      | nil => rw [hs] at h; exact absurd h (by simp)
      | cons a rest =>
        cases rest with
        | nil => rw [hs] at h; exact absurd h (by simp)
        | cons b rest2 =>
          cases rest2 with
          | nil =>
            rw [hs] at h
            simp only [Option.some.injEq, Prod.mk.injEq] at h
            simp [h.1, h.2]
          | cons c rest3 => rw [hs] at h; exact absurd h (by simp)
    · intro h
      rw [h]
  · intro store data action uid h
    unfold handleCallback
    rw [h]

/-- `fixEntry` on a record whose time string fails to parse. -/
theorem fixEntry_none {e : Entry} (hp : parseTime e.scheduled_time = none) :
    fixEntry e = (e, false, true) := by
  unfold fixEntry
  simp only [hp]

/-- `fixEntry` on a record whose stored minutes differ from the parse. -/
theorem fixEntry_some_ne {e : Entry} {h m : Int}
    (hp : parseTime e.scheduled_time = some (h, m))
    (hne : e.scheduled_minutes ≠ h * 60 + m) :
    fixEntry e = ({ e with scheduled_minutes := h * 60 + m }, true, false) := by
  unfold fixEntry
  simp only [hp, if_pos hne]

/-- `fixEntry` on a record whose stored minutes already agree. -/
theorem fixEntry_some_eq {e : Entry} {h m : Int}
    (hp : parseTime e.scheduled_time = some (h, m))
    (heq : e.scheduled_minutes = h * 60 + m) :
    fixEntry e = (e, false, false) := by
  unfold fixEntry
  simp only [hp]
  rw [if_neg (by simp [heq])]

/-- Repairing an already-repaired record issues no further update. -/
theorem fixEntry_fixed (e : Entry) :
    fixEntry ((fixEntry e).1) = ((fixEntry e).1, false, (fixEntry e).2.2) := by
  cases hp : parseTime e.scheduled_time with
  | none =>
    rw [fixEntry_none hp]
    exact fixEntry_none hp
  | some pr =>
    obtain ⟨h, m⟩ := pr
    by_cases hne : e.scheduled_minutes ≠ h * 60 + m
    · rw [fixEntry_some_ne hp hne]
      exact fixEntry_some_eq hp rfl
    · push_neg at hne
      rw [fixEntry_some_eq hp hne]
      exact fixEntry_some_eq hp hne

/-- Unfolding equation for `fixScheduleData` on a cons cell. -/
theorem fixScheduleData_cons (e : Entry) (rest : List Entry) :
    fixScheduleData (e :: rest) =
      ((fixEntry e).1 :: (fixScheduleData rest).1,
       (if (fixEntry e).2.1 = true then 1 else 0) + (fixScheduleData rest).2.1,
       (if (fixEntry e).2.2 = true then 1 else 0) + (fixScheduleData rest).2.2) := rfl

/-- A full repair pass leaves a store on which a second pass changes no
record, updates zero records and reports the same skips. -/
theorem fixScheduleData_idem (records : List Entry) :
    fixScheduleData (fixScheduleData records).1 =
      ((fixScheduleData records).1, 0, (fixScheduleData records).2.2) := by
  induction records with
  | nil => rfl
  | cons e rest ih =>
    rw [fixScheduleData_cons]
    simp only
    rw [fixScheduleData_cons, fixEntry_fixed e, ih]
    simp

/-- C7: a record whose time string parses is set to `hour*60+minute`,
with an update issued exactly when the stored value differs; a malformed
time string is skipped, reported and not mutated; and a second repair
pass updates zero records and leaves the store unchanged. -/
theorem repair_minutes (records : List Entry) :
    (∀ (e : Entry) (h m : Int), parseTime e.scheduled_time = some (h, m) →
      (fixEntry e).1 = { e with scheduled_minutes := h * 60 + m } ∧
      ((fixEntry e).2.1 = true ↔ e.scheduled_minutes ≠ h * 60 + m) ∧
      (fixEntry e).2.2 = false) ∧
    (∀ e : Entry, parseTime e.scheduled_time = none → fixEntry e = (e, false, true)) ∧
    (fixScheduleData (fixScheduleData records).1).1 = (fixScheduleData records).1 ∧
    (fixScheduleData (fixScheduleData records).1).2.1 = 0 := by
  refine ⟨?_, ?_, ?_, ?_⟩
  · intro e h m hp
    unfold fixEntry
    rw [hp]
    by_cases hne : e.scheduled_minutes ≠ h * 60 + m
    · simp [hne]
    · push_neg at hne
      have he : ({ e with scheduled_minutes := h * 60 + m } : Entry) = e := by
        rw [← hne]
      simp [hne, he]
  · intro e hp
    unfold fixEntry
    rw [hp]
  · rw [fixScheduleData_idem]
  · rw [fixScheduleData_idem]

/-- C7 witness: `"08:05"` with stored 400 is corrected to 485 with an
update issued; `"bad"` is skipped, reported and unchanged; re-running the
pass on the repaired two-row store updates zero records. -/
theorem repair_minutes_witness :
    (fixEntry ⟨1, "u1", "s1", 1, 1, "2025-01-01", "08:05", 400, Status.pending⟩).1 =
      ⟨1, "u1", "s1", 1, 1, "2025-01-01", "08:05", 485, Status.pending⟩ ∧
    (fixEntry ⟨1, "u1", "s1", 1, 1, "2025-01-01", "08:05", 400, Status.pending⟩).2.1 = true ∧
    fixEntry ⟨2, "u2", "s2", 1, 1, "2025-01-01", "bad", 100, Status.pending⟩ =
      (⟨2, "u2", "s2", 1, 1, "2025-01-01", "bad", 100, Status.pending⟩, false, true) ∧
    (fixScheduleData (fixScheduleData
      [⟨1, "u1", "s1", 1, 1, "2025-01-01", "08:05", 400, Status.pending⟩,
       ⟨2, "u2", "s2", 1, 1, "2025-01-01", "bad", 100, Status.pending⟩]).1).2.1 = 0 := by
  refine ⟨?_, ?_, ?_, ?_⟩
  · have h := ((repair_minutes []).1
      ⟨1, "u1", "s1", 1, 1, "2025-01-01", "08:05", 400, Status.pending⟩ 8 5 (by decide)).1
    rw [h]
    decide
  · have h := ((repair_minutes []).1
      ⟨1, "u1", "s1", 1, 1, "2025-01-01", "08:05", 400, Status.pending⟩ 8 5 (by decide)).2.1
    rw [h]
    decide
  · exact (repair_minutes []).2.1
      ⟨2, "u2", "s2", 1, 1, "2025-01-01", "bad", 100, Status.pending⟩ (by decide)
  · exact (repair_minutes
      [⟨1, "u1", "s1", 1, 1, "2025-01-01", "08:05", 400, Status.pending⟩,
       ⟨2, "u2", "s2", 1, 1, "2025-01-01", "bad", 100, Status.pending⟩]).2.2.2

/-- C6: an eligible (pending, selected) entry is transitioned to `sent`
exactly when the notification send reports success; delivery succeeds
exactly when a notification address exists and the send does not raise,
and on failure the entry is left unchanged (still `pending`). -/
theorem dispatch_sent_iff_delivered (store : List Entry) (itemId : Nat)
    (tid : Option String) (oc : SendOutcome) :
    (∀ (i : Nat) (e : Entry), store[i]? = some e → e.id = itemId →
      e.status = Status.pending →
      ((dispatchOne store itemId tid oc)[i]? = some { e with status := Status.sent } ↔
        sendAlert tid oc = true) ∧
      (sendAlert tid oc = false → (dispatchOne store itemId tid oc)[i]? = some e)) ∧
    (sendAlert tid oc = true ↔ tid ≠ none ∧ oc = SendOutcome.ok) := by
  constructor
  · intro i e hi hid hst
    have hne : e ≠ ({ e with status := Status.sent } : Entry) := by
      intro hEq
      have hstat := congrArg Entry.status hEq
      rw [hst] at hstat
      exact absurd hstat (by simp)
    by_cases hs : sendAlert tid oc = true
    · constructor
      · simp [dispatchOne, hs, markSent, hi, hid]
      · intro hf
        rw [hs] at hf
        exact absurd hf (by simp)
    · have hs' : sendAlert tid oc = false := by
        revert hs
        cases sendAlert tid oc <;> simp
      constructor
      · rw [dispatchOne, if_neg (by simp [hs'])]
        rw [hi]
        simp only [Option.some.injEq]
        constructor
        · intro hEq
          exact absurd hEq hne
        · intro hEq
          rw [hEq] at hs'
          exact absurd hs' (by simp)
      · intro _
        rw [dispatchOne, if_neg (by simp [hs'])]
        exact hi
  · cases tid <;> cases oc <;> simp [sendAlert]

/-- C6 witness: with an address and a clean send the pending row becomes
`sent`; with no address, and with a raising send, it stays `pending`. -/
theorem dispatch_sent_iff_delivered_witness :
    (dispatchOne [⟨1, "k1", "s1", 1, 1, "2025-01-01", "08:00", 480, Status.pending⟩]
        1 (some "5551234") SendOutcome.ok)[0]? =
      some ⟨1, "k1", "s1", 1, 1, "2025-01-01", "08:00", 480, Status.sent⟩ ∧
    (dispatchOne [⟨1, "k1", "s1", 1, 1, "2025-01-01", "08:00", 480, Status.pending⟩]
        1 none SendOutcome.ok)[0]? =
      some ⟨1, "k1", "s1", 1, 1, "2025-01-01", "08:00", 480, Status.pending⟩ ∧
    (dispatchOne [⟨1, "k1", "s1", 1, 1, "2025-01-01", "08:00", 480, Status.pending⟩]
        1 (some "5551234") SendOutcome.raises)[0]? =
      some ⟨1, "k1", "s1", 1, 1, "2025-01-01", "08:00", 480, Status.pending⟩ := by
  refine ⟨?_, ?_, ?_⟩
  · exact ((dispatch_sent_iff_delivered
      [⟨1, "k1", "s1", 1, 1, "2025-01-01", "08:00", 480, Status.pending⟩]
      1 (some "5551234") SendOutcome.ok).1 0
      ⟨1, "k1", "s1", 1, 1, "2025-01-01", "08:00", 480, Status.pending⟩
      rfl rfl rfl).1.mpr rfl
  · exact ((dispatch_sent_iff_delivered
      [⟨1, "k1", "s1", 1, 1, "2025-01-01", "08:00", 480, Status.pending⟩]
      1 none SendOutcome.ok).1 0
      ⟨1, "k1", "s1", 1, 1, "2025-01-01", "08:00", 480, Status.pending⟩
      rfl rfl rfl).2 rfl
  · exact ((dispatch_sent_iff_delivered
      [⟨1, "k1", "s1", 1, 1, "2025-01-01", "08:00", 480, Status.pending⟩]
      1 (some "5551234") SendOutcome.raises).1 0
      ⟨1, "k1", "s1", 1, 1, "2025-01-01", "08:00", 480, Status.pending⟩
      rfl rfl rfl).2 rfl

/-- C10 witness: decoding at concrete payloads. -/
theorem callback_action_decoding_witness :
    callbackStatus "taken" = Status.taken ∧
    callbackStatus "missed" = Status.missed ∧
    callbackStatus "garbage" = Status.missed ∧
    handleCallback
        [⟨1, "k1", "s1", 1, 1, "2025-01-01", "08:00", 480, Status.sent⟩] "taken:k1" =
      updateFinalStatus
        [⟨1, "k1", "s1", 1, 1, "2025-01-01", "08:00", 480, Status.sent⟩] "k1" Status.taken := by
  refine ⟨?_, ?_, ?_, ?_⟩
  · exact (callback_action_decoding.2.1 "taken").mpr rfl
  · rcases callback_action_decoding.1 "missed" with h | h
    · exact absurd ((callback_action_decoding.2.1 "missed").mp h) (by decide)
    · exact h
  · rcases callback_action_decoding.1 "garbage" with h | h
    · exact absurd ((callback_action_decoding.2.1 "garbage").mp h) (by decide)
    · exact h
  · have h := callback_action_decoding.2.2.2
      [⟨1, "k1", "s1", 1, 1, "2025-01-01", "08:00", 480, Status.sent⟩]
      "taken:k1" "taken" "k1" (by decide)
    rw [h]
    have ht : callbackStatus "taken" = Status.taken := by decide
    rw [ht]

/-- `countSlot` over a cons cell. -/
theorem countSlot_cons (e : Entry) (l : List Entry) (mid : Nat) (d t : String) :
    countSlot (e :: l) mid d t =
      (if e.medication_id = mid ∧ e.date = d ∧ e.scheduled_time = t then 1 else 0) +
        countSlot l mid d t := by
  rw [countSlot, List.filter_cons]
  by_cases h : e.medication_id = mid ∧ e.date = d ∧ e.scheduled_time = t
  · rw [if_pos (by simp [h.1, h.2.1, h.2.2]), if_pos h, List.length_cons]
    rw [countSlot]
    omega
  · rw [if_neg (by
      simp only [Bool.and_eq_true, decide_eq_true_eq]
      exact fun hc => h ⟨hc.1.1, hc.1.2, hc.2⟩), if_neg h]
    rw [countSlot]
    omega

/-- The store never shrinks across a generation pass, slot-count-wise. -/
theorem countSlot_le_generateFrom (st : List Entry) (today : String) (fail : Nat → Bool)
    (meds : List Med) (mid : Nat) (d t : String) :
    countSlot st mid d t ≤ countSlot (generateFrom st today fail meds) mid d t := by
  obtain ⟨suf, hsuf⟩ := generateFrom_append today fail meds st
  rw [hsuf, countSlot_append]
  omega

/-- The inner loop emits a record for a configured, parseable,
not-yet-represented time slot. -/
theorem newRecordsLoop_countSlot_pos (med : Med) (today : String) (ex : List String) :
    ∀ (ts : List String) (rid : Nat) (t : String) (h m : Int),
      t ∈ ts → parseTime t = some (h, m) → t ∉ ex →
      0 < countSlot (newRecordsLoop med today ex ts rid) med.id today t := by
  intro ts
  induction ts with
  | nil => intro rid t h m ht; simp at ht
  | cons t2 ts ih =>
    intro rid t h m ht hp hex
    rw [newRecordsLoop]
    rcases List.mem_cons.mp ht with rfl | hmem
    · simp only [hp]
      rw [if_neg hex, countSlot_cons]
      rw [if_pos ⟨slotRecord_medication_id med today t (h * 60 + m) rid,
        slotRecord_date med today t (h * 60 + m) rid,
        slotRecord_scheduled_time med today t (h * 60 + m) rid⟩]
      omega
    · cases hp2 : parseTime t2 with
      | none =>
        simp only [hp2]
        exact ih rid t h m hmem hp hex
      | some pr =>
        obtain ⟨h2, m2⟩ := pr
        simp only [hp2]
        by_cases hex2 : t2 ∈ ex
        · rw [if_pos hex2]
          exact ih rid t h m hmem hp hex
        · rw [if_neg hex2, countSlot_cons]
          have := ih (rid + 1) t h m hmem hp hex
          omega

/-- After a pass whose fetches all succeed, every parseable configured
slot of every processed medication is populated. -/
theorem generateFrom_present (today : String) (fail : Nat → Bool) :
    ∀ (meds : List Med) (st : List Entry) (med : Med), med ∈ meds →
      (∀ m2 ∈ meds, fail m2.id = false) →
      ∀ (t : String) (h m : Int), t ∈ med.times → parseTime t = some (h, m) →
      0 < countSlot (generateFrom st today fail meds) med.id today t := by
  intro meds
  induction meds with
  | nil => intro st med hmed; simp at hmed
  | cons med2 rest ih =>
    intro st med hmed hfail t h m ht hp
    have hf2 : fail med2.id = false := hfail med2 (List.mem_cons_self med2 rest)
    rw [generateFrom, if_neg (by simp [hf2])]
    rcases List.mem_cons.mp hmed with rfl | hmem
    · have hbase : 0 < countSlot (st ++ newRecordsFor st today med) med.id today t := by
        rw [countSlot_append]
        by_cases hex : t ∈ existingTimesFor st med.id today
        · have := (mem_existingTimesFor st med.id today t).mp hex
          omega
        · have := newRecordsLoop_countSlot_pos med today
            (existingTimesFor st med.id today) med.times st.length t h m ht hp hex
          rw [newRecordsFor]
          omega
      calc 0 < countSlot (st ++ newRecordsFor st today med) med.id today t := hbase
        _ ≤ _ := countSlot_le_generateFrom _ today fail rest med.id today t
    · exact ih _ med hmem (fun m2 hm2 => hfail m2 (List.mem_cons_of_mem _ hm2)) t h m ht hp

/-- The inner loop emits nothing when every parseable configured time is
already represented. -/
theorem newRecordsLoop_eq_nil (med : Med) (today : String) (ex : List String) :
    ∀ (ts : List String) (rid : Nat),
      (∀ t ∈ ts, ∀ h m : Int, parseTime t = some (h, m) → t ∈ ex) →
      newRecordsLoop med today ex ts rid = [] := by
  intro ts
  induction ts with
  | nil => intro rid _; rfl
  | cons t ts ih =>
    intro rid hall
    rw [newRecordsLoop]
    cases hp : parseTime t with
    | none =>
      simp only [hp]
      exact ih rid (fun t2 ht2 h m hp2 => hall t2 (List.mem_cons_of_mem _ ht2) h m hp2)
    | some pr =>
      obtain ⟨h, m⟩ := pr
      simp only [hp]
      rw [if_pos (hall t (List.mem_cons_self t ts) h m hp)]
      exact ih rid (fun t2 ht2 h2 m2 hp2 => hall t2 (List.mem_cons_of_mem _ ht2) h2 m2 hp2)

/-- A pass over a store in which every parseable configured slot is
already populated inserts nothing and returns the store unchanged. -/
theorem generateFrom_noop (today : String) (fail : Nat → Bool) :
    ∀ (meds : List Med) (st : List Entry),
      (∀ med ∈ meds, ∀ t ∈ med.times, ∀ h m : Int, parseTime t = some (h, m) →
        0 < countSlot st med.id today t) →
      generateFrom st today fail meds = st := by
  intro meds
  induction meds with
  | nil => intro st _; rfl
  | cons med rest ih =>
    intro st hfull
    rw [generateFrom]
    by_cases hf : fail med.id
    · rw [if_pos hf]
    · rw [if_neg hf]
      have hnil : newRecordsFor st today med = [] := by
        rw [newRecordsFor]
        refine newRecordsLoop_eq_nil med today _ med.times st.length ?_
        intro t ht h m hp
        exact (mem_existingTimesFor st med.id today t).mpr
          (hfull med (List.mem_cons_self med rest) t ht h m hp)
      rw [hnil, List.append_nil]
      exact ih st (fun med2 hmed2 => hfull med2 (List.mem_cons_of_mem _ hmed2))

/-- Slot count of the inner loop's batch: exactly one record for the
medication's own parseable missing time (configured times assumed
duplicate-free), zero otherwise. -/
theorem newRecordsLoop_countSlot (med : Med) (today : String) (ex : List String) :
    ∀ (ts : List String), ts.Nodup → ∀ (rid : Nat) (mid : Nat) (d t : String),
      countSlot (newRecordsLoop med today ex ts rid) mid d t =
        if med.id = mid ∧ today = d ∧ t ∈ ts ∧ (parseTime t).isSome = true ∧ t ∉ ex
        then 1 else 0 := by
  intro ts
  induction ts with
  | nil =>
    intro _ rid mid d t
    rw [newRecordsLoop]
    rw [if_neg (by simp)]
    rfl
  | cons t2 ts ih =>
    intro hnd rid mid d t
    have hnd2 : ts.Nodup := hnd.of_cons
    have ht2ts : t2 ∉ ts := by
      intro hmem
      exact (List.nodup_cons.mp hnd).1 hmem
    rw [newRecordsLoop]
    cases hp2 : parseTime t2 with
    | none =>
      simp only [hp2]
      rw [ih hnd2 rid mid d t]
      refine if_congr ?_ rfl rfl
      constructor
      · rintro ⟨h1, h2, h3, h4, h5⟩
        exact ⟨h1, h2, List.mem_cons_of_mem _ h3, h4, h5⟩
      · rintro ⟨h1, h2, h3, h4, h5⟩
        rcases List.mem_cons.mp h3 with rfl | h3b
        · rw [hp2] at h4
          simp at h4
        · exact ⟨h1, h2, h3b, h4, h5⟩
    | some pr =>
      obtain ⟨h2, m2⟩ := pr
      simp only [hp2]
      by_cases hex2 : t2 ∈ ex
      · rw [if_pos hex2]
        rw [ih hnd2 rid mid d t]
        refine if_congr ?_ rfl rfl
        constructor
        · rintro ⟨h1, hd1, h3, h4, h5⟩
          exact ⟨h1, hd1, List.mem_cons_of_mem _ h3, h4, h5⟩
        · rintro ⟨h1, hd1, h3, h4, h5⟩
          rcases List.mem_cons.mp h3 with rfl | h3b
          · exact absurd hex2 h5
          · exact ⟨h1, hd1, h3b, h4, h5⟩
      · rw [if_neg hex2, countSlot_cons, ih hnd2 (rid + 1) mid d t]
        rw [slotRecord_medication_id, slotRecord_date, slotRecord_scheduled_time]
        by_cases hteq : t2 = t
        · subst hteq
          have hps : (parseTime t2).isSome = true := by rw [hp2]; rfl
          have htail : ¬ (med.id = mid ∧ today = d ∧ t2 ∈ ts ∧
              (parseTime t2).isSome = true ∧ t2 ∉ ex) := fun hc => ht2ts hc.2.2.1
          by_cases hkey : med.id = mid ∧ today = d
          · rw [if_pos ⟨hkey.1, hkey.2, rfl⟩, if_neg htail,
              if_pos ⟨hkey.1, hkey.2, List.mem_cons_self t2 ts, hps, hex2⟩]
          · have hhead : ¬ (med.id = mid ∧ today = d ∧ t2 = t2) :=
              fun hc => hkey ⟨hc.1, hc.2.1⟩
            have hrhs : ¬ (med.id = mid ∧ today = d ∧ t2 ∈ t2 :: ts ∧
                (parseTime t2).isSome = true ∧ t2 ∉ ex) :=
              fun hc => hkey ⟨hc.1, hc.2.1⟩
            rw [if_neg hhead, if_neg htail, if_neg hrhs]
        · have hhead : ¬ (med.id = mid ∧ today = d ∧ t2 = t) := fun hc => hteq hc.2.2
          rw [if_neg hhead, Nat.zero_add]
          refine if_congr ?_ rfl rfl
          constructor
          · rintro ⟨h1, hd1, h3, h4, h5⟩
            exact ⟨h1, hd1, List.mem_cons_of_mem _ h3, h4, h5⟩
          · rintro ⟨h1, hd1, h3, h4, h5⟩
            rcases List.mem_cons.mp h3 with rfl | h3b
            · exact absurd rfl hteq
            · exact ⟨h1, hd1, h3b, h4, h5⟩

/-- Slot count after a failure-free pass over medications with distinct
ids and duplicate-free time lists: a configured, parseable, previously
empty slot ends with exactly one row; every other slot keeps its count. -/
theorem generateFrom_countSlot (today : String) :
    ∀ (meds : List Med) (st : List Entry) (mid : Nat) (t : String),
      (meds.map Med.id).Nodup → (∀ med ∈ meds, med.times.Nodup) →
      countSlot (generateFrom st today (fun _ => false) meds) mid today t =
        if (∃ med ∈ meds, med.id = mid ∧ t ∈ med.times ∧ (parseTime t).isSome = true) ∧
            countSlot st mid today t = 0
        then 1 else countSlot st mid today t := by
  intro meds
  induction meds with
  | nil =>
    intro st mid t _ _
    rw [generateFrom]
    rw [if_neg (by
      rintro ⟨⟨med, hmed, _⟩, _⟩
      simp at hmed)]
  | cons med rest ih =>
    intro st mid t hids htimes
    have hids2 : (rest.map Med.id).Nodup := (List.nodup_cons.mp hids).2
    have hmedid : med.id ∉ rest.map Med.id := (List.nodup_cons.mp hids).1
    have htimes2 : ∀ med2 ∈ rest, med2.times.Nodup :=
      fun med2 hmed2 => htimes med2 (List.mem_cons_of_mem _ hmed2)
    rw [generateFrom, if_neg (by simp)]
    rw [ih (st ++ newRecordsFor st today med) mid t hids2 htimes2]
    have hnewcount : countSlot (newRecordsFor st today med) mid today t =
        if med.id = mid ∧ today = today ∧ t ∈ med.times ∧ (parseTime t).isSome = true ∧
            t ∉ existingTimesFor st med.id today
        then 1 else 0 := by
      rw [newRecordsFor]
      exact newRecordsLoop_countSlot med today _ med.times
        (htimes med (List.mem_cons_self med rest)) st.length mid today t
    by_cases hid : med.id = mid
    · have hrest : ¬ ∃ med2 ∈ rest, med2.id = mid ∧ t ∈ med2.times ∧
          (parseTime t).isSome = true := by
        rintro ⟨med2, hmed2, hid2, _⟩
        exact hmedid (hid2.trans hid.symm ▸ List.mem_map_of_mem Med.id hmed2)
      rw [if_neg (fun hc => hrest hc.1), countSlot_append, hnewcount]
      by_cases hc : t ∈ med.times ∧ (parseTime t).isSome = true
      · by_cases h0 : countSlot st mid today t = 0
        · have hex : t ∉ existingTimesFor st med.id today := by
            rw [mem_existingTimesFor, hid, h0]
            omega
          rw [if_pos ⟨hid, rfl, hc.1, hc.2, hex⟩,
            if_pos ⟨⟨med, List.mem_cons_self med rest, hid, hc.1, hc.2⟩, h0⟩]
          omega
        · have hex : t ∈ existingTimesFor st med.id today := by
            rw [mem_existingTimesFor, hid]
            omega
          rw [if_neg (fun hcc => hcc.2.2.2.2 hex), if_neg (fun hcc => h0 hcc.2)]
          omega
      · rw [if_neg (fun hcc => hc ⟨hcc.2.2.1, hcc.2.2.2.1⟩)]
        rw [if_neg (by
          rintro ⟨⟨med2, hmed2, hid2, hts2, hps2⟩, _⟩
          rcases List.mem_cons.mp hmed2 with rfl | hmem2
          · exact hc ⟨hts2, hps2⟩
          · exact hmedid (hid2.trans hid.symm ▸ List.mem_map_of_mem Med.id hmem2))]
        omega
    · have hnew0 : countSlot (newRecordsFor st today med) mid today t = 0 := by
        rw [hnewcount, if_neg (fun hc => hid hc.1)]
      rw [countSlot_append, hnew0, Nat.add_zero]
      refine if_congr (and_congr_left fun _ => ?_) rfl rfl
      constructor
      · rintro ⟨med2, hmed2, hrest⟩
        exact ⟨med2, List.mem_cons_of_mem _ hmed2, hrest⟩
      · rintro ⟨med2, hmed2, hid2, hrest⟩
        rcases List.mem_cons.mp hmed2 with rfl | hmem2
        · exact absurd hid2 hid
        · exact ⟨med2, hmem2, hid2, hrest⟩

/-- C1: a failure-free generation pass realises exactly one entry for
every configured (parseable) `(medication, time)` slot that had none,
touches no slot that already has an entry, and running the pass a second
time over the store left by the first inserts zero rows (the store is
unchanged). -/
theorem generation_idempotent_and_unique (st : List Entry) (today : String)
    (meds : List Med)
    (hids : ((meds.filter Med.active).map Med.id).Nodup)
    (htimes : ∀ med ∈ meds.filter Med.active, med.times.Nodup) :
    generateDailySchedule (generateDailySchedule st today meds) today meds =
      generateDailySchedule st today meds ∧
    ∀ (mid : Nat) (t : String),
      countSlot (generateDailySchedule st today meds) mid today t =
        if configuredSlot meds mid t ∧ countSlot st mid today t = 0
        then 1 else countSlot st mid today t := by
  constructor
  · show generateFrom _ today _ (meds.filter Med.active) = _
    apply generateFrom_noop
    intro med hmed t ht h m hp
    show 0 < countSlot (generateFrom st today (fun _ => false) (meds.filter Med.active))
      med.id today t
    exact generateFrom_present today (fun _ => false) (meds.filter Med.active) st med
      hmed (fun _ _ => rfl) t h m ht hp
  · intro mid t
    show countSlot (generateFrom st today (fun _ => false) (meds.filter Med.active))
        mid today t = _
    rw [generateFrom_countSlot today (meds.filter Med.active) st mid t hids htimes]
    refine if_congr (and_congr_left fun _ => ?_) rfl rfl
    constructor
    · rintro ⟨med, hmed, hrest⟩
      obtain ⟨hmem, hact⟩ := List.mem_filter.mp hmed
      exact ⟨med, hmem, hact, hrest⟩
    · rintro ⟨med, hmem, hact, hrest⟩
      exact ⟨med, List.mem_filter.mpr ⟨hmem, hact⟩, hrest⟩

/-- C1 witness: from an empty store, a pass over one active medication
with two times creates exactly one entry per slot and the second pass
leaves the store untouched. -/
theorem generation_idempotent_and_unique_witness :
    generateDailySchedule
        (generateDailySchedule [] "2025-01-01" [⟨1, 1, true, ["08:00", "20:00"]⟩])
        "2025-01-01" [⟨1, 1, true, ["08:00", "20:00"]⟩] =
      generateDailySchedule [] "2025-01-01" [⟨1, 1, true, ["08:00", "20:00"]⟩] ∧
    countSlot (generateDailySchedule [] "2025-01-01" [⟨1, 1, true, ["08:00", "20:00"]⟩])
        1 "2025-01-01" "08:00" = 1 ∧
    countSlot (generateDailySchedule [] "2025-01-01" [⟨1, 1, true, ["08:00", "20:00"]⟩])
        1 "2025-01-01" "20:00" = 1 := by
  have h := generation_idempotent_and_unique [] "2025-01-01"
    [⟨1, 1, true, ["08:00", "20:00"]⟩] (by decide) (by decide)
  refine ⟨h.1, ?_, ?_⟩
  · rw [h.2 1 "08:00", if_pos ⟨by decide, rfl⟩]
  · rw [h.2 1 "20:00", if_pos ⟨by decide, rfl⟩]

/-- C5: every entry a generation pass creates carries the content-derived
key `uuid5(NAMESPACE_DNS, f"{medication_id}_{date}_{time}")` and its
8-character prefix as short key, so any two generation runs (over any
stores and medication sets) that create an entry for the same
`(medication_id, date, time-of-day)` tuple compute identical keys. -/
theorem deterministic_idempotency_keys :
    (∀ (st : List Entry) (today : String) (meds : List Med) (fail : Nat → Bool)
        (e : Entry),
      e ∈ generateDailyScheduleF st today meds fail → e ∉ st →
      e.unique_id = uuid5dns (uniqueStrFor e.medication_id today e.scheduled_time) ∧
      e.short_id = e.unique_id.take 8 ∧ e.short_id.length = 8) ∧
    (∀ (st st2 : List Entry) (today : String) (meds meds2 : List Med)
        (fail fail2 : Nat → Bool) (e e2 : Entry),
      e ∈ generateDailyScheduleF st today meds fail → e ∉ st →
      e2 ∈ generateDailyScheduleF st2 today meds2 fail2 → e2 ∉ st2 →
      e.medication_id = e2.medication_id → e.scheduled_time = e2.scheduled_time →
      e.unique_id = e2.unique_id ∧ e.short_id = e2.short_id) := by
  have main : ∀ (st : List Entry) (today : String) (meds : List Med) (fail : Nat → Bool)
      (e : Entry),
      e ∈ generateDailyScheduleF st today meds fail → e ∉ st →
      e.unique_id = uuid5dns (uniqueStrFor e.medication_id today e.scheduled_time) ∧
      e.short_id = e.unique_id.take 8 ∧ e.short_id.length = 8 := by
    intro st today meds fail e he hnew
    rcases generateFrom_mem today fail (meds.filter Med.active) st e he with hin | hslot
    · exact absurd hin hnew
    · obtain ⟨med, _, t, h, m, rid2, _, _, he2⟩ := hslot
      subst he2
      refine ⟨?_, ?_, ?_⟩
      · rw [slotRecord_medication_id, slotRecord_scheduled_time, slotRecord_unique_id]
      · rw [slotRecord_short_id, slotRecord_unique_id]
      · rw [slotRecord_short_id]
        exact take8_of_uuid_length _ (uuid5dns_length _)
  refine ⟨main, ?_⟩
  intro st st2 today meds meds2 fail fail2 e e2 he hnew he2 hnew2 hmid ht
  obtain ⟨hu, hshort, _⟩ := main st today meds fail e he hnew
  obtain ⟨hu2, hshort2, _⟩ := main st2 today meds2 fail2 e2 he2 hnew2
  have huid : e.unique_id = e2.unique_id := by
    rw [hu, hu2, hmid, ht]
  exact ⟨huid, by rw [hshort, hshort2, huid]⟩

/-- C5 witness: a concrete generation run creates the entry for
`(1, 2025-01-01, 08:00)` with exactly the deterministic key and its
8-character prefix. -/
theorem deterministic_idempotency_keys_witness :
    (⟨0, "33ce8a1c-defe-5d8d-961e-2d4d98981a2e", "33ce8a1c", 1, 1, "2025-01-01",
        "08:00", 480, Status.pending⟩ : Entry) ∈
      generateDailyScheduleF [] "2025-01-01" [⟨1, 1, true, ["08:00"]⟩] (fun _ => false) ∧
    ("33ce8a1c-defe-5d8d-961e-2d4d98981a2e" : String) =
      uuid5dns (uniqueStrFor 1 "2025-01-01" "08:00") ∧
    ("33ce8a1c" : String).length = 8 := by
  have hmem : (⟨0, "33ce8a1c-defe-5d8d-961e-2d4d98981a2e", "33ce8a1c", 1, 1,
      "2025-01-01", "08:00", 480, Status.pending⟩ : Entry) ∈
      generateDailyScheduleF [] "2025-01-01" [⟨1, 1, true, ["08:00"]⟩] (fun _ => false) := by
    decide
  have h := (deterministic_idempotency_keys.1 [] "2025-01-01"
    [⟨1, 1, true, ["08:00"]⟩] (fun _ => false) _ hmem (by decide))
  exact ⟨hmem, h.1, h.2.2⟩

/-- C9 counterexample: the generator performs no range validation on the
parsed time, so the configured time `"25:00"` produces exactly one
created entry and its stored `scheduled_minutes` is 1500, outside
0–1439. -/
theorem generator_minutes_range_counterexample :
    (generateDailySchedule [] "2025-01-01" [⟨1, 1, true, ["25:00"]⟩]).map
        Entry.scheduled_minutes = [1500] ∧ ¬ ((1500 : Int) ≤ 1439) := by
  constructor
  · decide
  · decide

/-- C9 amended: an entry is inserted for every configured time string
that splits into two Python-parseable integers, with `scheduled_minutes =
h*60+m` unvalidated; when every configured time of the medication set
parses within 0 ≤ hour ≤ 23 and 0 ≤ minute ≤ 59, every created entry's
`scheduled_minutes` lies in 0–1439. -/
theorem generator_minutes_range_of_valid_times (st : List Entry) (today : String)
    (meds : List Med) (fail : Nat → Bool)
    (hvalid : ∀ med ∈ meds, ∀ t ∈ med.times, ∀ h m : Int,
      parseTime t = some (h, m) → 0 ≤ h ∧ h ≤ 23 ∧ 0 ≤ m ∧ m ≤ 59)
    (e : Entry) (he : e ∈ generateDailyScheduleF st today meds fail) (hnew : e ∉ st) :
    0 ≤ e.scheduled_minutes ∧ e.scheduled_minutes ≤ 1439 := by
  rcases generateFrom_mem today fail (meds.filter Med.active) st e he with hin | hslot
  · exact absurd hin hnew
  · obtain ⟨med, hmed, t, h, m, rid2, ht, hp, he2⟩ := hslot
    have hmed2 : med ∈ meds := (List.mem_filter.mp hmed).1
    obtain ⟨h0, h23, m0, m59⟩ := hvalid med hmed2 t ht h m hp
    rw [he2, slotRecord_scheduled_minutes]
    omega

/-- C9 amended witness: with the valid time `"08:00"` configured, the
created entry's minutes lie in range. -/
theorem generator_minutes_range_of_valid_times_witness :
    0 ≤ (⟨0, "33ce8a1c-defe-5d8d-961e-2d4d98981a2e", "33ce8a1c", 1, 1, "2025-01-01",
        "08:00", 480, Status.pending⟩ : Entry).scheduled_minutes ∧
    (⟨0, "33ce8a1c-defe-5d8d-961e-2d4d98981a2e", "33ce8a1c", 1, 1, "2025-01-01",
        "08:00", 480, Status.pending⟩ : Entry).scheduled_minutes ≤ 1439 := by
  refine generator_minutes_range_of_valid_times [] "2025-01-01"
    [⟨1, 1, true, ["08:00"]⟩] (fun _ => false) ?_ _ (by decide) (by decide)
  intro med hmed t ht h m hp
  have hm : med = ⟨1, 1, true, ["08:00"]⟩ := by
    simpa using hmed
  subst hm
  have ht2 : t = "08:00" := by
    simpa using ht
  subst ht2
  have hp2 : parseTime "08:00" = some (8, 0) := by decide
  rw [hp2] at hp
  obtain ⟨rfl, rfl⟩ : h = 8 ∧ m = 0 := by
    have := Option.some.inj hp
    exact ⟨(Prod.mk.injEq _ _ _ _ ▸ this).1.symm ▸ rfl, by
      have h2 := congrArg Prod.snd this
      simpa using h2.symm⟩
  norm_num

/-- C8 counterexample: with the history fetch failing for medication 1,
the pass aborts before medication 2, which receives no entry even though
a failure-free pass would create one — the failure is not isolated to the
failing medication. -/
theorem generation_isolation_counterexample :
    countSlot (generateDailyScheduleF [] "2025-01-01"
        [⟨1, 1, true, ["08:00"]⟩, ⟨2, 2, true, ["08:00"]⟩] (fun i => i == 1))
      2 "2025-01-01" "08:00" = 0 ∧
    countSlot (generateDailySchedule [] "2025-01-01"
        [⟨1, 1, true, ["08:00"]⟩, ⟨2, 2, true, ["08:00"]⟩])
      2 "2025-01-01" "08:00" = 1 := by
  constructor
  · decide
  · decide

/-- C8 amended: a failure fetching one medication's existing entries
aborts the remainder of the pass: medications before the failing one in
iteration order are fully processed and keep their inserts, while the
failing medication and every later one are skipped until the next pass. -/
theorem generation_aborts_at_failing_medication (st : List Entry) (today : String)
    (pre post : List Med) (bad : Med) (fail : Nat → Bool)
    (hpre : ∀ m ∈ pre, fail m.id = false) (hbad : fail bad.id = true) :
    generateFrom st today fail (pre ++ bad :: post) = generateFrom st today fail pre := by
  induction pre generalizing st with
  | nil =>
    simp [generateFrom, hbad]
  | cons m rest ih =>
    have hm : fail m.id = false := hpre m (List.mem_cons_self m rest)
    rw [List.cons_append, generateFrom, if_neg (by simp [hm]), generateFrom,
      if_neg (by simp [hm])]
    exact ih _ (fun m2 hm2 => hpre m2 (List.mem_cons_of_mem _ hm2))

/-- C8 amended witness: at a concrete three-medication pass failing on
the second medication, the result equals the pass over the first
medication alone. -/
theorem generation_aborts_at_failing_medication_witness :
    generateFrom [] "2025-01-01" (fun i => i == 2)
        [⟨1, 1, true, ["08:00"]⟩, ⟨2, 2, true, ["09:00"]⟩, ⟨3, 3, true, ["10:00"]⟩] =
      generateFrom [] "2025-01-01" (fun i => i == 2) [⟨1, 1, true, ["08:00"]⟩] := by
  exact generation_aborts_at_failing_medication [] "2025-01-01"
    [⟨1, 1, true, ["08:00"]⟩] [⟨3, 3, true, ["10:00"]⟩] ⟨2, 2, true, ["09:00"]⟩
    (fun i => i == 2) (by decide) (by decide)

/-- Unfolding of the stable descending sort on a cons cell. -/
theorem sortByPriorityDesc_cons (a : Entry) (l : List Entry) :
    sortByPriorityDesc (a :: l) =
      List.orderedInsert (fun x y => status_priority y.status ≤ status_priority x.status) a
        (sortByPriorityDesc l) :=
  rfl

/-- The key grouping relation is reflexive. -/
theorem sameSlotKey_refl (r : Entry) : sameSlotKey r r = true := by
  simp [sameSlotKey]

/-- A stored row belongs to its own group. -/
theorem mem_groupIn_self (records : List Entry) (r : Entry) (hr : r ∈ records) :
    r ∈ groupIn records r :=
  List.mem_filter.mpr ⟨hr, sameSlotKey_refl r⟩

/-- Two rows with the same key determine the same group. -/
theorem groupIn_eq_of_key (records : List Entry) (r x : Entry)
    (hx : sameSlotKey x r = true) : groupIn records x = groupIn records r := by
  apply List.filter_congr
  intro y _
  simp only [sameSlotKey, Bool.and_eq_true, decide_eq_true_eq] at hx
  simp [sameSlotKey, hx.1, hx.2]

/-- The head of the stable descending sort of a nonempty group is a
first-encountered member of maximal status priority. -/
theorem keeper_cons_spec :
    ∀ (l : List Entry) (a : Entry),
      ∃ k l1 l2, keeper (a :: l) = some k ∧ a :: l = l1 ++ k :: l2 ∧
        (∀ x ∈ l1, status_priority x.status < status_priority k.status) ∧
        (∀ x ∈ a :: l, status_priority x.status ≤ status_priority k.status) := by
  intro l
  induction l with
  | nil =>
    intro a
    refine ⟨a, [], [], rfl, rfl, by simp, ?_⟩
    intro x hx
    rw [List.mem_singleton.mp hx]
  | cons b l ih =>
    intro a
    obtain ⟨k, l1, l2, hk, hsplit, hfirst, hmax⟩ := ih b
    obtain ⟨srest, hs⟩ : ∃ srest, sortByPriorityDesc (b :: l) = k :: srest := by
      cases hh : sortByPriorityDesc (b :: l) with
      | nil => rw [keeper, hh] at hk; simp at hk
      | cons y ys =>
        rw [keeper, hh] at hk
        simp only [List.head?_cons, Option.some.injEq] at hk
        exact ⟨ys, by rw [hk]⟩
    by_cases hr : status_priority k.status ≤ status_priority a.status
    · refine ⟨a, [], b :: l, ?_, rfl, by simp, ?_⟩
      · rw [keeper, sortByPriorityDesc_cons, hs, List.orderedInsert, if_pos hr]
        rfl
      · intro x hx
        rcases List.mem_cons.mp hx with rfl | hx2
        · exact le_refl _
        · exact le_trans (hmax x hx2) hr
    · have hlt : status_priority a.status < status_priority k.status := Nat.lt_of_not_le hr
      refine ⟨k, a :: l1, l2, ?_, by rw [List.cons_append, ← hsplit], ?_, ?_⟩
      · rw [keeper, sortByPriorityDesc_cons, hs, List.orderedInsert, if_neg hr]
        rfl
      · intro x hx
        rcases List.mem_cons.mp hx with rfl | hx2
        · exact hlt
        · exact hfirst x hx2
      · intro x hx
        rcases List.mem_cons.mp hx with rfl | hx2
        · exact le_of_lt hlt
        · exact hmax x hx2

/-- Filtering a duplicate-free-id group down to one row id leaves exactly
that row. -/
theorem filter_id_eq_singleton :
    ∀ (g : List Entry) (k : Entry), k ∈ g → (g.map Entry.id).Nodup →
      g.filter (fun x => x.id = k.id) = [k] := by
  intro g
  induction g with
  | nil => intro k hk _; simp at hk
  | cons x g ih =>
    intro k hk hnd
    rw [List.map_cons] at hnd
    have hnd2 : (g.map Entry.id).Nodup := (List.nodup_cons.mp hnd).2
    have hxid : x.id ∉ g.map Entry.id := (List.nodup_cons.mp hnd).1
    rcases List.mem_cons.mp hk with rfl | hk2
    · rw [List.filter_cons, if_pos (by simp)]
      have hnil : g.filter (fun y => y.id = k.id) = [] := by
        rw [List.filter_eq_nil_iff]
        intro y hy
        simp only [decide_eq_true_eq]
        intro hid
        exact hxid (hid ▸ List.mem_map_of_mem Entry.id hy)
      rw [hnil]
    · have hne : ¬ (x.id = k.id) := by
        intro hid
        have : k.id ∈ g.map Entry.id := List.mem_map_of_mem Entry.id hk2
        exact hxid (hid ▸ this)
      rw [List.filter_cons, if_neg (by simpa using hne)]
      exact ih k hk2 hnd2

/-- The group of a row inside the cleaned store is the kept part of its
original group. -/
theorem groupIn_clean (records : List Entry) (r : Entry) :
    groupIn (cleanDuplicates records) r =
      (groupIn records r).filter (keptInClean records) := by
  rw [groupIn, cleanDuplicates, List.filter_filter, groupIn, List.filter_filter]
  apply List.filter_congr
  intro y _
  exact Bool.and_comm _ _

/-- The survival predicate of a row depends only on its group. -/
theorem keptInClean_of_mem_group (records : List Entry) (r x : Entry)
    (hx : x ∈ groupIn records r) :
    keptInClean records x =
      (decide ((groupIn records r).length ≤ 1) ||
        (match keeper (groupIn records r) with
         | some k => decide (x.id = k.id)
         | none => false)) := by
  rw [keptInClean, groupIn_eq_of_key records r x (List.mem_filter.mp hx).2]

/-- Each nonempty group is left with exactly one row by reconciliation. -/
theorem groupIn_clean_length (records : List Entry)
    (hids : (records.map Entry.id).Nodup) (r : Entry) (hr : r ∈ records) :
    (groupIn (cleanDuplicates records) r).length = 1 := by
  rw [groupIn_clean]
  have hrg : r ∈ groupIn records r := mem_groupIn_self records r hr
  by_cases h1 : (groupIn records r).length ≤ 1
  · have hself : (groupIn records r).filter (keptInClean records) = groupIn records r := by
      rw [List.filter_eq_self]
      intro x hx
      rw [keptInClean_of_mem_group records r x hx]
      simp [h1]
    rw [hself]
    have hpos := List.length_pos.mpr (List.ne_nil_of_mem hrg)
    omega
  · obtain ⟨a, l, hal⟩ : ∃ a l, groupIn records r = a :: l := by
      cases hg : groupIn records r with
      | nil => rw [hg] at hrg; simp at hrg
      | cons a l => exact ⟨a, l, rfl⟩
    obtain ⟨k, l1, l2, hk, hsplit, _, _⟩ := keeper_cons_spec l a
    have hkg : keeper (groupIn records r) = some k := by rw [hal]; exact hk
    have hkmem : k ∈ groupIn records r := by
      rw [hal, hsplit]
      exact List.mem_append.mpr (Or.inr (List.mem_cons_self k l2))
    have hgnd : ((groupIn records r).map Entry.id).Nodup :=
      hids.sublist ((List.filter_sublist records).map Entry.id)
    have hfilter : (groupIn records r).filter (keptInClean records) =
        (groupIn records r).filter (fun x => x.id = k.id) := by
      apply List.filter_congr
      intro x hx
      rw [keptInClean_of_mem_group records r x hx, hkg]
      simp [h1]
    rw [hfilter, filter_id_eq_singleton (groupIn records r) k hkmem hgnd]
    rfl

/-- C4: with distinct row ids, reconciliation leaves every nonempty
`(medication, time)` group with exactly one row; a single-member group is
never touched; every surviving row has maximal status precedence in its
group and is the first-encountered row of that maximal precedence; and
re-running reconciliation deletes nothing. -/
theorem reconciliation_keeps_one_per_group (records : List Entry)
    (hids : (records.map Entry.id).Nodup) :
    (∀ r ∈ records, (groupIn (cleanDuplicates records) r).length = 1) ∧
    (∀ r ∈ records, (groupIn records r).length = 1 → r ∈ cleanDuplicates records) ∧
    (∀ r ∈ cleanDuplicates records,
      (∀ x ∈ groupIn records r, status_priority x.status ≤ status_priority r.status) ∧
      ∃ l1 l2, groupIn records r = l1 ++ r :: l2 ∧
        ∀ x ∈ l1, status_priority x.status < status_priority r.status) ∧
    cleanDuplicates (cleanDuplicates records) = cleanDuplicates records := by
  refine ⟨?_, ?_, ?_, ?_⟩
  · intro r hr
    exact groupIn_clean_length records hids r hr
  · intro r hr h1
    refine List.mem_filter.mpr ⟨hr, ?_⟩
    rw [keptInClean]
    simp [h1]
  · intro r hrc
    obtain ⟨hr, hkept⟩ := List.mem_filter.mp hrc
    have hrg : r ∈ groupIn records r := mem_groupIn_self records r hr
    by_cases h1 : (groupIn records r).length ≤ 1
    · have hsingle : groupIn records r = [r] := by
        cases hg : groupIn records r with
        | nil => rw [hg] at hrg; simp at hrg
        | cons a l =>
          rw [hg] at hrg h1
          have hl : l = [] := by
            rw [List.length_cons] at h1
            exact List.eq_nil_of_length_eq_zero (by omega)
          subst hl
          rw [List.mem_singleton.mp hrg]
      rw [hsingle]
      refine ⟨?_, [], [], rfl, by simp⟩
      intro x hx
      rw [List.mem_singleton.mp hx]
    · obtain ⟨a, l, hal⟩ : ∃ a l, groupIn records r = a :: l := by
        cases hg : groupIn records r with
        | nil => rw [hg] at hrg; simp at hrg
        | cons a l => exact ⟨a, l, rfl⟩
      obtain ⟨k, l1, l2, hk, hsplit, hfirst, hmax⟩ := keeper_cons_spec l a
      have hkg : keeper (groupIn records r) = some k := by rw [hal]; exact hk
      have hkmem : k ∈ groupIn records r := by
        rw [hal, hsplit]
        exact List.mem_append.mpr (Or.inr (List.mem_cons_self k l2))
      have hgnd : ((groupIn records r).map Entry.id).Nodup :=
        hids.sublist ((List.filter_sublist records).map Entry.id)
      rw [keptInClean, hkg] at hkept
      simp only [h1, decide_eq_true_eq, Bool.or_eq_true, decide_eq_false_iff_not,
        not_lt] at hkept
      have hkid : r.id = k.id := hkept.resolve_left (fun f => f)
      have hrk : r = k := List.inj_on_of_nodup_map hgnd hrg hkmem hkid
      subst hrk
      constructor
      · intro x hx
        rw [hal] at hx
        exact hmax x hx
      · exact ⟨l1, l2, by rw [hal, hsplit], hfirst⟩
  · conv_lhs => rw [cleanDuplicates]
    rw [List.filter_eq_self]
    intro r hrc
    have hr : r ∈ records := (List.mem_filter.mp hrc).1
    have hlen := groupIn_clean_length records hids r hr
    rw [keptInClean]
    simp [hlen]

/-- C4 witness: at a concrete three-row group with statuses pending,
sent, taken, reconciliation keeps only the `taken` row, a lone pending
row of another slot survives, and re-running deletes nothing. -/
theorem reconciliation_keeps_one_per_group_witness :
    cleanDuplicates
        [⟨1, "k1", "s1", 7, 1, "2025-01-01", "08:00", 480, Status.pending⟩,
         ⟨2, "k2", "s2", 7, 1, "2025-01-01", "08:00", 480, Status.sent⟩,
         ⟨3, "k3", "s3", 7, 1, "2025-01-01", "08:00", 480, Status.taken⟩,
         ⟨4, "k4", "s4", 9, 1, "2025-01-01", "09:00", 540, Status.pending⟩] =
      [⟨3, "k3", "s3", 7, 1, "2025-01-01", "08:00", 480, Status.taken⟩,
       ⟨4, "k4", "s4", 9, 1, "2025-01-01", "09:00", 540, Status.pending⟩] ∧
    cleanDuplicates (cleanDuplicates
        [⟨1, "k1", "s1", 7, 1, "2025-01-01", "08:00", 480, Status.pending⟩,
         ⟨2, "k2", "s2", 7, 1, "2025-01-01", "08:00", 480, Status.sent⟩,
         ⟨3, "k3", "s3", 7, 1, "2025-01-01", "08:00", 480, Status.taken⟩,
         ⟨4, "k4", "s4", 9, 1, "2025-01-01", "09:00", 540, Status.pending⟩]) =
      cleanDuplicates
        [⟨1, "k1", "s1", 7, 1, "2025-01-01", "08:00", 480, Status.pending⟩,
         ⟨2, "k2", "s2", 7, 1, "2025-01-01", "08:00", 480, Status.sent⟩,
         ⟨3, "k3", "s3", 7, 1, "2025-01-01", "08:00", 480, Status.taken⟩,
         ⟨4, "k4", "s4", 9, 1, "2025-01-01", "09:00", 540, Status.pending⟩] := by
  constructor
  · decide
  · exact (reconciliation_keeps_one_per_group
      [⟨1, "k1", "s1", 7, 1, "2025-01-01", "08:00", 480, Status.pending⟩,
       ⟨2, "k2", "s2", 7, 1, "2025-01-01", "08:00", 480, Status.sent⟩,
       ⟨3, "k3", "s3", 7, 1, "2025-01-01", "08:00", 480, Status.taken⟩,
       ⟨4, "k4", "s4", 9, 1, "2025-01-01", "09:00", 540, Status.pending⟩]
      (by decide)).2.2.2
